import Mathlib

/-!
Verification of the HVVR sample-resolution stage.

The repository's `src/libraries/hvvr/raycaster/resolve.h` declares two GPU
kernel entry points, `DeferredMSAAResolve` and `ClearEmptyTiles`.  The header
is the only source file present; the kernel bodies (resolve.cu) are absent, so
the behaviour of the two kernels is modelled here from the design document
(sections 3, 4.1, 4.2), while the C++ signatures themselves are embedded
directly from the header.

Machine colors are modelled with exact rational components; GPU buffers are
total functions from flat indices; kernel dispatch over tiles is modelled as a
fold of single-pixel writes over an explicit per-frame write list, which also
serves as the write-instrumentation demanded by the testable properties of
the design document (section 8).
-/

namespace HVVR

/-- Modelled from the spec: a shaded radiance value ("color") as stored in the
resolved color buffer (spec section 3, "Resolved Color Buffer"); the absent
resolve.cu fixes no channel format, so an exact three-channel rational color
is used. -/
structure Color where
  r : ℚ
  g : ℚ
  b : ℚ
  deriving DecidableEq, Repr

theorem Color.ext_iff' {c d : Color} : c = d ↔ c.r = d.r ∧ c.g = d.g ∧ c.b = d.b := by
  constructor
  · intro h; subst h; exact ⟨rfl, rfl, rfl⟩
  · rintro ⟨h1, h2, h3⟩; cases c; cases d; simp_all

def Color.scale (w : ℚ) (c : Color) : Color := ⟨w * c.r, w * c.g, w * c.b⟩

def Color.add (c d : Color) : Color := ⟨c.r + d.r, c.g + d.g, c.b + d.b⟩

def Color.zero : Color := ⟨0, 0, 0⟩

/-- Modelled from the spec: one entry of the raw per-sample result buffer
(spec section 3, "Raw Per-Sample Result", backing the missing resolve.cu):
either a miss, or a hit carrying a shaded color, a depth value and a
discontinuity key. -/
inductive SampleResult where
  | miss : SampleResult
  | hit (color : Color) (depth : ℚ) (key : ℕ) : SampleResult
  deriving DecidableEq, Repr

def SampleResult.keyOf : SampleResult → Option ℕ
  | .miss => none
  | .hit _ _ k => some k

def SampleResult.isMiss : SampleResult → Bool
  | .miss => true
  | _ => false

/-- Pass-through value of a single sample: its color on a hit, the background
color on a miss (spec section 4.2, edge cases). -/
def SampleResult.passColor (s : SampleResult) (bg : Color) : Color :=
  match s with
  | .miss => bg
  | .hit c _ _ => c

/-- Discontinuity keys present among the hit subsamples of one pixel, in order
of first appearance. -/
def hitKeys (samples : List (SampleResult × ℚ)) : List ℕ :=
  (samples.filterMap fun s => s.1.keyOf).dedup

/-- Number of hit subsamples carrying discontinuity key `k`. -/
def countKey (samples : List (SampleResult × ℚ)) (k : ℕ) : ℕ :=
  samples.countP fun s => s.1.keyOf == some k

/-- Modelled from the spec: the majority-cluster rule of the missing
resolve.cu (spec section 4.2 step 3).  Hit subsamples are partitioned by
discontinuity key and the key whose cluster has the most subsamples wins
(first such key on a tie); `none` when the pixel has no hit subsample at
all. -/
def majorityKey (samples : List (SampleResult × ℚ)) : Option ℕ :=
  (hitKeys samples).argmax fun k => countKey samples k

/-- Modelled from the spec: the contributors blended for a pixel whose
majority cluster has key `k` (spec section 4.2 steps 3-4): the hit subsamples
of that cluster contribute their own color, every miss subsample contributes
the background color, and hit subsamples of other clusters are excluded. -/
def clusterContribs (samples : List (SampleResult × ℚ)) (bg : Color) (k : ℕ) :
    List (Color × ℚ) :=
  samples.filterMap fun s =>
    match s.1 with
    | .miss => some (bg, s.2)
    | .hit c _ k2 => if k2 = k then some (c, s.2) else none

def totalWeight (contribs : List (Color × ℚ)) : ℚ :=
  (contribs.map Prod.snd).sum

def weightedSum (contribs : List (Color × ℚ)) : Color :=
  contribs.foldr (fun cw acc => Color.add (Color.scale cw.2 cw.1) acc) Color.zero

/-- Filter-weighted average of a contributor list. -/
def blend (contribs : List (Color × ℚ)) : Color :=
  Color.scale (totalWeight contribs)⁻¹ (weightedSum contribs)

/-- Modelled from the spec: the per-pixel reconstruction of the missing
resolve.cu (spec section 4.2): blend the majority cluster (misses contributing
background), falling back to the background color when the pixel has no hit
subsample (zero subsamples or all-miss, spec section 7 "Degenerate data"). -/
def resolvePixel (samples : List (SampleResult × ℚ)) (bg : Color) : Color :=
  match majorityKey samples with
  | none => bg
  | some k => blend (clusterContribs samples bg k)

/-- Modelled from the spec: the Sample Layout Descriptor (spec section 3 and
section 9 "Variable-density addressing"): per-pixel subsample counts, an
addressing scheme mapping (pixel index, subsample index) to an offset into the
raw sample buffer, and the subsample's 2D offset within the pixel
footprint. -/
structure SampleInfo where
  pixelCount : ℕ
  sampleCount : ℕ → ℕ
  address : ℕ → ℕ → ℕ
  offset2D : ℕ → ℕ → ℚ × ℚ

/-- The sample-to-camera transform of resolve.h (`const matrix3x3&`); its
linear part acts on sub-pixel offsets to express them in camera space. -/
structure matrix3x3 where
  m00 : ℚ
  m01 : ℚ
  m02 : ℚ
  m10 : ℚ
  m11 : ℚ
  m12 : ℚ
  m20 : ℚ
  m21 : ℚ
  m22 : ℚ
  deriving DecidableEq, Repr

def matrix3x3.applyOffset (M : matrix3x3) (o : ℚ × ℚ) : ℚ × ℚ :=
  (M.m00 * o.1 + M.m01 * o.2, M.m10 * o.1 + M.m11 * o.2)

/-- The camera-to-world transform of resolve.h (`const matrix4x4&`); the spec
(section 4.2) retains it only to express directions in a stable frame: it does
not influence the resolved color. -/
structure matrix4x4 where
  row0 : ℚ × ℚ × ℚ × ℚ
  row1 : ℚ × ℚ × ℚ × ℚ
  row2 : ℚ × ℚ × ℚ × ℚ
  row3 : ℚ × ℚ × ℚ × ℚ
  deriving DecidableEq, Repr

/-- Modelled from the spec: the reconstruction-filter weight of one subsample
(spec section 4.2 step 2): the filter kernel `filt` — whose exact shape the
spec leaves open (section 9) — evaluated on the subsample's 2D offset
re-expressed in camera space through the sample-to-camera transform. -/
def sampleWeight (filt : ℚ × ℚ → ℚ) (sampleToCamera : matrix3x3)
    (layout : SampleInfo) (p i : ℕ) : ℚ :=
  filt (sampleToCamera.applyOffset (layout.offset2D p i))

/-- Modelled from the spec: gathering of one pixel's subsamples through the
layout descriptor's addressing scheme (spec section 4.2 step 1), paired with
their filter weights. -/
def gatherPixel (filt : ℚ × ℚ → ℚ) (sampleToCamera : matrix3x3)
    (layout : SampleInfo) (raw : ℕ → SampleResult) (p : ℕ) :
    List (SampleResult × ℚ) :=
  (List.range (layout.sampleCount p)).map fun i =>
    (raw (layout.address p i), sampleWeight filt sampleToCamera layout p i)

/-- Modelled from the spec: the tile partition and per-tile emptiness flags
(spec section 3, "Tile"): `tileOf` assigns every pixel its tile, tiles being
the classes of this assignment, and `emptyFlag` is the frame's per-tile
emptiness signal computed upstream. -/
structure TileMap where
  pixelCount : ℕ
  tileOf : ℕ → ℕ
  emptyFlag : ℕ → Bool

/-- A grid of `tilesX * tilesY` fixed-size rectangular tiles of
`tileW * tileH` pixels each, pixels flattened row-major. -/
def TileMap.grid (tilesX tilesY tileW tileH : ℕ) (emptyFlag : ℕ → Bool) :
    TileMap where
  pixelCount := (tilesX * tileW) * (tilesY * tileH)
  tileOf := fun p =>
    let w := tilesX * tileW
    (p / w / tileH) * tilesX + (p % w) / tileW
  emptyFlag := emptyFlag

/-- A single write into the resolved color buffer. -/
def writePixel (buf : ℕ → Color) (p : ℕ) (c : Color) : ℕ → Color :=
  fun q => if q = p then c else buf q

/-- A kernel dispatch as a batch of independent single-pixel writes: pixel `p`
of the write list receives color `f p`. -/
def writeList (f : ℕ → Color) (ps : List ℕ) (buf : ℕ → Color) : ℕ → Color :=
  ps.foldl (fun b p => writePixel b p (f p)) buf

/-- Modelled from the spec: the write set of the missing Clear-Empty-Tiles
kernel — every pixel lying in a tile flagged empty (spec sections 4.1, 9
"Dual-write-path invariant": the frame's pixels are partitioned once into the
two kernels' disjoint write sets). -/
def clearWrites (T : TileMap) : List ℕ :=
  (List.range T.pixelCount).filter fun p => T.emptyFlag (T.tileOf p)

/-- Modelled from the spec: the write set of the missing Deferred-MSAA-Resolve
kernel — every pixel of a tile not flagged empty (spec sections 4.2, 9). -/
def resolveWrites (T : TileMap) : List ℕ :=
  (List.range T.pixelCount).filter fun p => !(T.emptyFlag (T.tileOf p))

/-- Modelled from the spec: the Clear-Empty-Tiles kernel body missing from
src/ (declared in resolve.h, behaviour from spec section 4.1): write the
designated background color to every pixel of every tile flagged empty,
touching no other pixel of the resolved color buffer. -/
def ClearEmptyTiles (T : TileMap) (bg : Color) (buf : ℕ → Color) : ℕ → Color :=
  writeList (fun _ => bg) (clearWrites T) buf

/-- Modelled from the spec: the Deferred-MSAA-Resolve kernel body missing from
src/ (declared in resolve.h, behaviour from spec section 4.2): for every pixel
of every non-empty tile, gather that pixel's subsamples through the layout
descriptor and write the discontinuity-aware filtered color; the
camera-to-world transform is received but does not affect the output. -/
def DeferredMSAAResolve (filt : ℚ × ℚ → ℚ) (sampleToCamera : matrix3x3)
    (cameraToWorld : matrix4x4) (layout : SampleInfo) (T : TileMap)
    (raw : ℕ → SampleResult) (bg : Color) (buf : ℕ → Color) : ℕ → Color :=
  writeList (fun p => resolvePixel (gatherPixel filt sampleToCamera layout raw p) bg)
    (resolveWrites T) buf

/-- Modelled from the spec: one frame of the resolve stage (spec section 2
control flow): Clear-Empty-Tiles over the empty tiles, then Deferred MSAA
Resolve over the remaining tiles, on a shared destination buffer. -/
def resolveFrame (filt : ℚ × ℚ → ℚ) (sampleToCamera : matrix3x3)
    (cameraToWorld : matrix4x4) (layout : SampleInfo) (T : TileMap)
    (raw : ℕ → SampleResult) (bg : Color) (buf : ℕ → Color) : ℕ → Color :=
  DeferredMSAAResolve filt sampleToCamera cameraToWorld layout T raw bg
    (ClearEmptyTiles T bg buf)

/-! ### Embedding of the C++ declarations of resolve.h -/

/-- How a C++ parameter is passed in resolve.h. -/
inductive PassMode where
  | byValue : PassMode
  | byConstRef : PassMode
  | byMutRef : PassMode
  | byMutPtr : PassMode
  deriving DecidableEq, Repr

/-- One formal parameter of a C++ declaration: name, type and passing mode. -/
structure CppParam where
  pname : String
  ptype : String
  mode : PassMode
  deriving DecidableEq, Repr

/-- A C++ function declaration: name, return type and parameter list. -/
structure CppFunSig where
  fname : String
  ret : String
  params : List CppParam
  deriving DecidableEq, Repr

/-- The declaration of DeferredMSAAResolve, transcribed from
src/libraries/hvvr/raycaster/resolve.h lines 21-25. -/
def DeferredMSAAResolve_decl : CppFunSig where
  fname := "DeferredMSAAResolve"
  ret := "void"
  params :=
    [⟨"camera", "GPUCamera", .byMutRef⟩,
     ⟨"d_sampleResults", "unsigned int", .byMutPtr⟩,
     ⟨"sampleInfo", "SampleInfo", .byValue⟩,
     ⟨"sampleToCamera", "matrix3x3", .byConstRef⟩,
     ⟨"cameraToWorld", "matrix4x4", .byConstRef⟩]

/-- The declaration of ClearEmptyTiles, transcribed from
src/libraries/hvvr/raycaster/resolve.h line 27. -/
def ClearEmptyTiles_decl : CppFunSig where
  fname := "ClearEmptyTiles"
  ret := "void"
  params :=
    [⟨"camera", "GPUCamera", .byMutRef⟩,
     ⟨"d_sampleResults", "unsigned int", .byMutPtr⟩,
     ⟨"stream", "cudaStream_t", .byValue⟩]

/-- A parameter lets the callee mutate caller-visible state exactly when it is
a non-const reference or a pointer to non-const data. -/
def CppParam.callerMutable (p : CppParam) : Bool :=
  match p.mode with
  | .byMutRef => true
  | .byMutPtr => true
  | _ => false

/-! ### Helper lemmas: color algebra -/

theorem Color.add_zero_right (c : Color) : Color.add c Color.zero = c := by
  cases c; simp [Color.add, Color.zero]

theorem Color.scale_add_scale (a b : ℚ) (c : Color) :
    Color.add (Color.scale a c) (Color.scale b c) = Color.scale (a + b) c := by
  cases c; simp [Color.scale, Color.add, Color.ext_iff']
  refine ⟨by ring, by ring, by ring⟩

theorem Color.scale_scale (a b : ℚ) (c : Color) :
    Color.scale a (Color.scale b c) = Color.scale (a * b) c := by
  cases c; simp [Color.scale, Color.ext_iff']
  refine ⟨by ring, by ring, by ring⟩

theorem Color.scale_one (c : Color) : Color.scale 1 c = c := by
  cases c; simp [Color.scale]

/-! ### Helper lemmas: weighted blending -/

theorem totalWeight_nil : totalWeight [] = 0 := rfl

theorem totalWeight_cons (x : Color × ℚ) (t : List (Color × ℚ)) :
    totalWeight (x :: t) = x.2 + totalWeight t := by
  simp [totalWeight]

theorem totalWeight_pos (contribs : List (Color × ℚ))
    (h : ∀ x ∈ contribs, 0 < x.2) (hne : contribs ≠ []) :
    0 < totalWeight contribs := by
  refine List.sum_pos _ (fun w hw => ?_) (by simpa using hne)
  rcases List.mem_map.1 hw with ⟨x, hx, rfl⟩
  exact h x hx

theorem weightedSum_const (contribs : List (Color × ℚ)) (A : Color)
    (h : ∀ x ∈ contribs, x.1 = A) :
    weightedSum contribs = Color.scale (totalWeight contribs) A := by
  induction contribs with
  | nil => simp [weightedSum, totalWeight_nil, Color.scale, Color.zero]
  | cons x t ih =>
    have hx : x.1 = A := h x (List.mem_cons_self x t)
    have ht : ∀ y ∈ t, y.1 = A := fun y hy => h y (List.mem_cons_of_mem _ hy)
    simp only [weightedSum, List.foldr_cons] at *
    rw [ih ht, hx, totalWeight_cons, Color.scale_add_scale]

theorem blend_const (contribs : List (Color × ℚ)) (A : Color)
    (h : ∀ x ∈ contribs, x.1 = A) (hw : totalWeight contribs ≠ 0) :
    blend contribs = A := by
  rw [blend, weightedSum_const _ _ h, Color.scale_scale,
    inv_mul_cancel₀ hw, Color.scale_one]

/-! ### Helper lemmas: per-pixel resolve -/

theorem hitKeys_eq_nil_of_all_miss (samples : List (SampleResult × ℚ))
    (h : ∀ s ∈ samples, s.1 = SampleResult.miss) : hitKeys samples = [] := by
  have : (samples.filterMap fun s => s.1.keyOf) = [] := by
    rw [List.filterMap_eq_nil_iff]
    intro s hs
    rw [h s hs]
    rfl
  simp [hitKeys, this]

theorem resolvePixel_all_miss (samples : List (SampleResult × ℚ)) (bg : Color)
    (h : ∀ s ∈ samples, s.1 = SampleResult.miss) :
    resolvePixel samples bg = bg := by
  have hk : majorityKey samples = none := by
    rw [majorityKey, hitKeys_eq_nil_of_all_miss samples h]
    rfl
  rw [resolvePixel, hk]

theorem resolvePixel_single (s : SampleResult) (w : ℚ) (hw : 0 < w)
    (bg : Color) : resolvePixel [(s, w)] bg = s.passColor bg := by
  cases s with
  | miss =>
    rw [resolvePixel_all_miss _ _ (by simp)]
    rfl
  | hit c d k =>
    have hmaj : majorityKey [(SampleResult.hit c d k, w)] = some k := by
      rw [majorityKey]
      have : hitKeys [(SampleResult.hit c d k, w)] = [k] := rfl
      rw [this, List.argmax_singleton]
    have hcon : clusterContribs [(SampleResult.hit c d k, w)] bg k = [(c, w)] := by
      simp [clusterContribs, SampleResult.keyOf]
    rw [resolvePixel, hmaj]
    show blend (clusterContribs [(SampleResult.hit c d k, w)] bg k) = _
    rw [hcon,
      blend_const [(c, w)] c (by simp)
        (by rw [totalWeight_cons, totalWeight_nil, add_zero]; exact hw.ne')]
    rfl

/-! ### Helper lemmas: kernel dispatch as pixel writes -/

theorem writeList_not_mem (f : ℕ → Color) (ps : List ℕ) (buf : ℕ → Color)
    (p : ℕ) (hp : p ∉ ps) : writeList f ps buf p = buf p := by
  induction ps generalizing buf with
  | nil => rfl
  | cons a t ih =>
    simp only [List.mem_cons, not_or] at hp
    show writeList f t (writePixel buf a (f a)) p = buf p
    rw [ih _ hp.2]
    simp [writePixel, hp.1]

theorem writeList_mem (f : ℕ → Color) (ps : List ℕ) (buf : ℕ → Color)
    (p : ℕ) (hp : p ∈ ps) : writeList f ps buf p = f p := by
  induction ps generalizing buf with
  | nil => cases hp
  | cons a t ih =>
    show writeList f t (writePixel buf a (f a)) p = f p
    by_cases hpt : p ∈ t
    · exact ih _ hpt
    · have hpa : p = a := by
        rcases List.mem_cons.1 hp with h | h
        · exact h
        · exact absurd h hpt
      rw [writeList_not_mem _ _ _ _ hpt]
      simp [writePixel, hpa]

theorem mem_clearWrites {T : TileMap} {p : ℕ} :
    p ∈ clearWrites T ↔ p < T.pixelCount ∧ T.emptyFlag (T.tileOf p) = true := by
  simp [clearWrites, List.mem_filter, List.mem_range]

theorem mem_resolveWrites {T : TileMap} {p : ℕ} :
    p ∈ resolveWrites T ↔ p < T.pixelCount ∧ T.emptyFlag (T.tileOf p) = false := by
  simp [resolveWrites, List.mem_filter, List.mem_range]

theorem clearWrites_nodup (T : TileMap) : (clearWrites T).Nodup :=
  (List.nodup_range _).filter _

theorem resolveWrites_nodup (T : TileMap) : (resolveWrites T).Nodup :=
  (List.nodup_range _).filter _

/-! ### Helper lemmas: the majority cluster -/

theorem mem_hitKeys {samples : List (SampleResult × ℚ)} {k : ℕ} :
    k ∈ hitKeys samples ↔ ∃ s ∈ samples, s.1.keyOf = some k := by
  simp [hitKeys, List.mem_dedup, List.mem_filterMap]

theorem majorityKey_isSome {samples : List (SampleResult × ℚ)} {k : ℕ}
    (hk : k ∈ hitKeys samples) : ∃ m, majorityKey samples = some m := by
  rcases hm : majorityKey samples with _ | m
  · rw [majorityKey, List.argmax_eq_none] at hm
    rw [hm] at hk
    cases hk
  · exact ⟨m, rfl⟩

theorem majorityKey_count_ge {samples : List (SampleResult × ℚ)} {k m : ℕ}
    (hk : k ∈ hitKeys samples) (hm : majorityKey samples = some m) :
    countKey samples k ≤ countKey samples m := by
  rw [majorityKey] at hm
  exact List.le_of_mem_argmax hk (Option.mem_def.2 hm)

theorem majorityKey_mem {samples : List (SampleResult × ℚ)} {m : ℕ}
    (hm : majorityKey samples = some m) : m ∈ hitKeys samples := by
  rw [majorityKey] at hm
  exact List.argmax_mem (Option.mem_def.2 hm)

/-- Sample lists for the two-cluster scenario: every element of `l` is a hit
with color `A`, key `k1` and a positive weight. -/
def AllHitA (A : Color) (k1 : ℕ) (l : List (SampleResult × ℚ)) : Prop :=
  ∀ x ∈ l, ∃ d w, x = (SampleResult.hit A d k1, w) ∧ 0 < w

theorem countKey_append (l l' : List (SampleResult × ℚ)) (k : ℕ) :
    countKey (l ++ l') k = countKey l k + countKey l' k :=
  List.countP_append _ _ _

theorem countKey_cons (s : SampleResult × ℚ) (l : List (SampleResult × ℚ))
    (k : ℕ) :
    countKey (s :: l) k = countKey l k + if s.1.keyOf == some k then 1 else 0 :=
  List.countP_cons _ _ _

theorem countKey_allHitA {A : Color} {k1 : ℕ} {l : List (SampleResult × ℚ)}
    (hA : AllHitA A k1 l) : countKey l k1 = l.length := by
  rw [countKey, List.countP_eq_length]
  intro s hs
  rcases hA s hs with ⟨d, w, rfl, -⟩
  simp [SampleResult.keyOf]

theorem countKey_allHitA_other {A : Color} {k1 k : ℕ}
    {l : List (SampleResult × ℚ)} (hA : AllHitA A k1 l) (hk : k ≠ k1) :
    countKey l k = 0 := by
  rw [countKey, List.countP_eq_zero]
  intro s hs
  rcases hA s hs with ⟨d, w, rfl, -⟩
  simp [SampleResult.keyOf, hk.symm]

/-- The two-cluster majority lemma (spec section 4.2 step 3, section 8): in a
pixel holding `n ≥ 2` hits of color `A` and key `k1` together with one hit of
key `k2 ≠ k1` at an arbitrary position, the resolve outputs exactly `A`: the
minority cluster's color does not contribute at all. -/
theorem resolvePixel_two_clusters (A B : Color) (k1 k2 : ℕ) (dB wB : ℚ)
    (l1 l2 : List (SampleResult × ℚ)) (bg : Color)
    (hA : AllHitA A k1 (l1 ++ l2)) (hlen : 2 ≤ (l1 ++ l2).length)
    (hk : k1 ≠ k2) :
    resolvePixel (l1 ++ (SampleResult.hit B dB k2, wB) :: l2) bg = A := by
  set samples := l1 ++ (SampleResult.hit B dB k2, wB) :: l2 with hsamples
  have hA1 : AllHitA A k1 l1 := fun x hx => hA x (List.mem_append_left _ hx)
  have hA2 : AllHitA A k1 l2 := fun x hx => hA x (List.mem_append_right _ hx)
  -- cluster sizes
  have hBkey1 : (((SampleResult.hit B dB k2, wB) : SampleResult × ℚ).1.keyOf
      == some k1) = false := by
    simp only [SampleResult.keyOf, Option.some.injEq, beq_eq_false_iff_ne,
      ne_eq]
    exact fun h => hk h.symm
  have hBkey2 : (((SampleResult.hit B dB k2, wB) : SampleResult × ℚ).1.keyOf
      == some k2) = true := by
    simp [SampleResult.keyOf]
  have hcount1 : countKey samples k1 = (l1 ++ l2).length := by
    rw [hsamples, countKey_append, countKey_cons, hBkey1,
      countKey_allHitA hA1, countKey_allHitA hA2, List.length_append]
    simp
  have hcount2 : countKey samples k2 = 1 := by
    rw [hsamples, countKey_append, countKey_cons, hBkey2,
      countKey_allHitA_other hA1 (Ne.symm hk),
      countKey_allHitA_other hA2 (Ne.symm hk)]
    simp
  -- some element of the majority cluster exists
  obtain ⟨x0, hx0⟩ : ∃ x, x ∈ l1 ++ l2 :=
    List.exists_mem_of_ne_nil _ (by
      intro h
      rw [h] at hlen
      simp at hlen)
  obtain ⟨d0, w0, hx0eq, hw0⟩ := hA x0 hx0
  have hx0mem : x0 ∈ samples := by
    rcases List.mem_append.1 hx0 with h | h
    · exact List.mem_append_left _ h
    · exact List.mem_append_right _ (List.mem_cons_of_mem _ h)
  have hk1mem : k1 ∈ hitKeys samples :=
    mem_hitKeys.2 ⟨x0, hx0mem, by rw [hx0eq]; rfl⟩
  -- the majority key is k1
  obtain ⟨m, hm⟩ := majorityKey_isSome hk1mem
  have hmk1 : m = k1 := by
    have hge : countKey samples k1 ≤ countKey samples m :=
      majorityKey_count_ge hk1mem hm
    rcases mem_hitKeys.1 (majorityKey_mem hm) with ⟨s, hs, hskey⟩
    have : s ∈ l1 ++ l2 ∨ s = (SampleResult.hit B dB k2, wB) := by
      rcases List.mem_append.1 hs with h | h
      · exact Or.inl (List.mem_append_left _ h)
      · rcases List.mem_cons.1 h with h | h
        · exact Or.inr h
        · exact Or.inl (List.mem_append_right _ h)
    rcases this with h | h
    · rcases hA s h with ⟨d, w, rfl, -⟩
      simp [SampleResult.keyOf] at hskey
      exact hskey.symm
    · rw [h] at hskey
      simp [SampleResult.keyOf] at hskey
      subst hskey
      rw [hcount1, hcount2] at hge
      omega
  subst hmk1
  -- the blended contributors are exactly the majority cluster, all of color A
  have hcontrib : ∀ x ∈ clusterContribs samples bg m, x.1 = A ∧ 0 < x.2 := by
    intro x hx
    rcases List.mem_filterMap.1 hx with ⟨s, hs, hsx⟩
    have : s ∈ l1 ++ l2 ∨ s = (SampleResult.hit B dB k2, wB) := by
      rcases List.mem_append.1 hs with h | h
      · exact Or.inl (List.mem_append_left _ h)
      · rcases List.mem_cons.1 h with h | h
        · exact Or.inr h
        · exact Or.inl (List.mem_append_right _ h)
    rcases this with h | h
    · rcases hA s h with ⟨d, w, rfl, hw⟩
      simp at hsx
      rw [← hsx]
      exact ⟨rfl, hw⟩
    · rw [h] at hsx
      simp at hsx
      exact absurd hsx.1 (fun hh => hk hh.symm)
  have hmem0 : (A, w0) ∈ clusterContribs samples bg m := by
    refine List.mem_filterMap.2 ⟨x0, hx0mem, ?_⟩
    rw [hx0eq]
    simp
  have hwpos : 0 < totalWeight (clusterContribs samples bg m) :=
    totalWeight_pos _ (fun x hx => (hcontrib x hx).2)
      (List.ne_nil_of_mem hmem0)
  rw [resolvePixel, hm]
  exact blend_const _ A (fun x hx => (hcontrib x hx).1) hwpos.ne'

/-! ### Helper lemmas: partial-coverage blending (three hits and a miss) -/

theorem blend_cancel (wA wB a c : ℚ) (hB : 0 < wB)
    (htw : wA + wB ≠ 0) (h : (wA + wB)⁻¹ * (wA * a + wB * c) = a) : c = a := by
  field_simp at h
  have h2 : wB * c = wB * a := by ring_nf at h ⊢; linarith
  exact mul_left_cancel₀ hB.ne' h2

/-- Abbreviation for the concrete four-subsample pixel of the spec's section 8
scenario: three hits of color `A` sharing one discontinuity key, one miss. -/
def samples31 (A : Color) (k : ℕ) (d1 d2 d3 w1 w2 w3 w4 : ℚ) :
    List (SampleResult × ℚ) :=
  [(SampleResult.hit A d1 k, w1), (SampleResult.hit A d2 k, w2),
   (SampleResult.hit A d3 k, w3), (SampleResult.miss, w4)]

theorem majorityKey_samples31 (A : Color) (k : ℕ) (d1 d2 d3 w1 w2 w3 w4 : ℚ) :
    majorityKey (samples31 A k d1 d2 d3 w1 w2 w3 w4) = some k := by
  have hfm : ((samples31 A k d1 d2 d3 w1 w2 w3 w4).filterMap
      fun s => s.1.keyOf) = [k, k, k] := rfl
  have hdedup : ([k, k, k] : List ℕ).dedup = [k] := by
    rw [List.dedup_cons_of_mem (by simp), List.dedup_cons_of_mem (by simp)]
    simp
  rw [majorityKey, hitKeys, hfm, hdedup, List.argmax_singleton]

theorem resolvePixel_samples31 (A bg : Color) (k : ℕ)
    (d1 d2 d3 w1 w2 w3 w4 : ℚ) :
    resolvePixel (samples31 A k d1 d2 d3 w1 w2 w3 w4) bg =
      Color.scale (w1 + w2 + w3 + w4)⁻¹
        (Color.add (Color.scale (w1 + w2 + w3) A) (Color.scale w4 bg)) := by
  rw [resolvePixel, majorityKey_samples31]
  show blend (clusterContribs (samples31 A k d1 d2 d3 w1 w2 w3 w4) bg k) = _
  have hcon : clusterContribs (samples31 A k d1 d2 d3 w1 w2 w3 w4) bg k
      = [(A, w1), (A, w2), (A, w3), (bg, w4)] := by
    simp [clusterContribs, samples31]
  rw [hcon]
  simp only [blend, weightedSum, totalWeight, List.foldr_cons, List.foldr_nil,
    List.map_cons, List.map_nil, List.sum_cons, List.sum_nil, Color.scale,
    Color.add, Color.zero, Color.ext_iff']
  refine ⟨by ring, by ring, by ring⟩

theorem blend_cancel_left (wA wB a c : ℚ) (hA : 0 < wA)
    (htw : wA + wB ≠ 0) (h : (wA + wB)⁻¹ * (wA * a + wB * c) = c) : a = c := by
  apply blend_cancel wB wA c a hA (by rw [add_comm]; exact htw)
  rw [show (wB + wA)⁻¹ * (wB * c + wA * a)
      = (wA + wB)⁻¹ * (wA * a + wB * c) from by ring]
  exact h

theorem resolvePixel_samples31_ne (A bg : Color) (k : ℕ)
    (d1 d2 d3 w1 w2 w3 w4 : ℚ) (hw1 : 0 < w1) (hw2 : 0 < w2) (hw3 : 0 < w3)
    (hw4 : 0 < w4) (hAbg : A ≠ bg) :
    resolvePixel (samples31 A k d1 d2 d3 w1 w2 w3 w4) bg ≠ A ∧
    resolvePixel (samples31 A k d1 d2 d3 w1 w2 w3 w4) bg ≠ bg := by
  rw [resolvePixel_samples31]
  have h123 : 0 < w1 + w2 + w3 := by linarith
  have htw : (w1 + w2 + w3) + w4 ≠ 0 := by positivity
  constructor
  · intro heq
    apply hAbg
    rw [Color.ext_iff'] at heq ⊢
    simp only [Color.scale, Color.add] at heq
    exact ⟨(blend_cancel (w1 + w2 + w3) w4 A.r bg.r hw4 htw heq.1).symm,
      (blend_cancel (w1 + w2 + w3) w4 A.g bg.g hw4 htw heq.2.1).symm,
      (blend_cancel (w1 + w2 + w3) w4 A.b bg.b hw4 htw heq.2.2).symm⟩
  · intro heq
    apply hAbg
    rw [Color.ext_iff'] at heq ⊢
    simp only [Color.scale, Color.add] at heq
    exact ⟨blend_cancel_left (w1 + w2 + w3) w4 A.r bg.r h123 htw heq.1,
      blend_cancel_left (w1 + w2 + w3) w4 A.g bg.g h123 htw heq.2.1,
      blend_cancel_left (w1 + w2 + w3) w4 A.b bg.b h123 htw heq.2.2⟩

/-! ### Claim theorems -/

/-- C1: For every tile whose emptiness flag is true, ClearEmptyTiles writes
the designated background color into the resolved color buffer at every pixel
of that tile, and for every tile not flagged empty, ClearEmptyTiles leaves
every pixel of that tile unchanged. -/
theorem C1_clear_empty_tiles (T : TileMap) (bg : Color) (buf : ℕ → Color)
    (p : ℕ) (hp : p < T.pixelCount) :
    (T.emptyFlag (T.tileOf p) = true → ClearEmptyTiles T bg buf p = bg) ∧
    (T.emptyFlag (T.tileOf p) = false → ClearEmptyTiles T bg buf p = buf p) := by
  constructor
  · intro hflag
    exact writeList_mem _ _ _ _ (mem_clearWrites.2 ⟨hp, hflag⟩)
  · intro hflag
    refine writeList_not_mem _ _ _ _ (fun hmem => ?_)
    rw [(mem_clearWrites.1 hmem).2] at hflag
    cases hflag

theorem C1_witness :
    0 < (TileMap.grid 2 1 1 1 (fun t => t == 0)).pixelCount ∧
    ((TileMap.grid 2 1 1 1 (fun t => t == 0)).emptyFlag
        ((TileMap.grid 2 1 1 1 (fun t => t == 0)).tileOf 0) = true →
      ClearEmptyTiles (TileMap.grid 2 1 1 1 (fun t => t == 0)) ⟨1, 1, 1⟩
        (fun _ => ⟨0, 0, 0⟩) 0 = ⟨1, 1, 1⟩) ∧
    ((TileMap.grid 2 1 1 1 (fun t => t == 0)).emptyFlag
        ((TileMap.grid 2 1 1 1 (fun t => t == 0)).tileOf 0) = false →
      ClearEmptyTiles (TileMap.grid 2 1 1 1 (fun t => t == 0)) ⟨1, 1, 1⟩
        (fun _ => ⟨0, 0, 0⟩) 0 = ⟨0, 0, 0⟩) := by
  refine ⟨by decide, ?_, ?_⟩
  · exact (C1_clear_empty_tiles (TileMap.grid 2 1 1 1 (fun t => t == 0))
      ⟨1, 1, 1⟩ (fun _ => ⟨0, 0, 0⟩) 0 (by decide)).1
  · exact (C1_clear_empty_tiles (TileMap.grid 2 1 1 1 (fun t => t == 0))
      ⟨1, 1, 1⟩ (fun _ => ⟨0, 0, 0⟩) 0 (by decide)).2

/-- C2: Within one frame, every pixel of the resolved color buffer is written
exactly once across the two kernels' write sets — by ClearEmptyTiles exactly
when its tile is flagged empty and by DeferredMSAAResolve otherwise — and the
two write sets are disjoint. -/
theorem C2_single_writer_per_pixel (T : TileMap) (p : ℕ)
    (hp : p < T.pixelCount) :
    (clearWrites T ++ resolveWrites T).count p = 1 ∧
    (p ∈ clearWrites T ↔ T.emptyFlag (T.tileOf p) = true) ∧
    (p ∈ resolveWrites T ↔ T.emptyFlag (T.tileOf p) = false) ∧
    ¬(p ∈ clearWrites T ∧ p ∈ resolveWrites T) := by
  have hmc : p ∈ clearWrites T ↔ T.emptyFlag (T.tileOf p) = true := by
    rw [mem_clearWrites]
    exact ⟨fun h => h.2, fun h => ⟨hp, h⟩⟩
  have hmr : p ∈ resolveWrites T ↔ T.emptyFlag (T.tileOf p) = false := by
    rw [mem_resolveWrites]
    exact ⟨fun h => h.2, fun h => ⟨hp, h⟩⟩
  refine ⟨?_, hmc, hmr, ?_⟩
  · rw [List.count_append]
    cases hflag : T.emptyFlag (T.tileOf p) with
    | true =>
      rw [List.count_eq_one_of_mem (clearWrites_nodup T) (hmc.2 hflag),
        List.count_eq_zero_of_not_mem (fun hmem => by
          rw [hmr.1 hmem] at hflag
          cases hflag)]
    | false =>
      rw [List.count_eq_one_of_mem (resolveWrites_nodup T) (hmr.2 hflag),
        List.count_eq_zero_of_not_mem (fun hmem => by
          rw [hmc.1 hmem] at hflag
          cases hflag)]
  · rintro ⟨h1, h2⟩
    have ht := hmc.1 h1
    have hf := hmr.1 h2
    rw [ht] at hf
    cases hf

theorem C2_witness :
    0 < (TileMap.grid 2 1 1 1 (fun t => t == 0)).pixelCount ∧
    ((clearWrites (TileMap.grid 2 1 1 1 (fun t => t == 0)) ++
        resolveWrites (TileMap.grid 2 1 1 1 (fun t => t == 0))).count 0 = 1) ∧
    ¬(0 ∈ clearWrites (TileMap.grid 2 1 1 1 (fun t => t == 0)) ∧
      0 ∈ resolveWrites (TileMap.grid 2 1 1 1 (fun t => t == 0))) := by
  refine ⟨by decide, ?_, ?_⟩
  · exact (C2_single_writer_per_pixel (TileMap.grid 2 1 1 1 (fun t => t == 0))
      0 (by decide)).1
  · exact (C2_single_writer_per_pixel (TileMap.grid 2 1 1 1 (fun t => t == 0))
      0 (by decide)).2.2.2

/-- C3: For a pixel whose subsamples form two discontinuity-key clusters with
a clear majority in one — `n ≥ 2` subsamples of color `A` under key `k1` and a
single subsample of color `B` under key `k2`, at any position — the resolved
color is exactly `A`: a function of the majority cluster's color alone, never
a linear blend including the minority color `B`. -/
theorem C3_no_cross_edge_blend (A B : Color) (k1 k2 : ℕ) (dB wB : ℚ)
    (l1 l2 : List (SampleResult × ℚ)) (bg : Color)
    (hA : AllHitA A k1 (l1 ++ l2)) (hlen : 2 ≤ (l1 ++ l2).length)
    (hk : k1 ≠ k2) :
    resolvePixel (l1 ++ (SampleResult.hit B dB k2, wB) :: l2) bg = A :=
  resolvePixel_two_clusters A B k1 k2 dB wB l1 l2 bg hA hlen hk

theorem C3_witness :
    AllHitA ⟨1, 0, 0⟩ 1 ([(SampleResult.hit ⟨1, 0, 0⟩ 0 1, 1)] ++
      [(SampleResult.hit ⟨1, 0, 0⟩ 2 1, 3)]) ∧
    2 ≤ ([(SampleResult.hit ⟨1, 0, 0⟩ 0 1, (1 : ℚ))] ++
      [(SampleResult.hit ⟨1, 0, 0⟩ 2 1, 3)]).length ∧
    (1 : ℕ) ≠ 2 ∧
    resolvePixel ([(SampleResult.hit ⟨1, 0, 0⟩ 0 1, 1)] ++
      (SampleResult.hit ⟨0, 1, 0⟩ 5 2, 7) ::
      [(SampleResult.hit ⟨1, 0, 0⟩ 2 1, 3)]) ⟨0, 0, 0⟩ = ⟨1, 0, 0⟩ := by
  have hA : AllHitA ⟨1, 0, 0⟩ 1 ([(SampleResult.hit ⟨1, 0, 0⟩ 0 1, 1)] ++
      [(SampleResult.hit ⟨1, 0, 0⟩ 2 1, 3)]) := by
    intro x hx
    simp only [List.mem_append, List.mem_singleton] at hx
    rcases hx with rfl | rfl
    · exact ⟨0, 1, rfl, by norm_num⟩
    · exact ⟨2, 3, rfl, by norm_num⟩
  refine ⟨hA, by decide, by decide, ?_⟩
  exact C3_no_cross_edge_blend ⟨1, 0, 0⟩ ⟨0, 1, 0⟩ 1 2 5 7
    [(SampleResult.hit ⟨1, 0, 0⟩ 0 1, 1)]
    [(SampleResult.hit ⟨1, 0, 0⟩ 2 1, 3)] ⟨0, 0, 0⟩ hA (by decide) (by decide)

/-- C4: a miss subsample contributes the background color rather than being
dropped: for a 4-subsample pixel holding three hits of color `A` under one
discontinuity key and one miss, all weights positive, the resolved color is
the filter-weighted blend of `A` and the background color, and (for `A`
distinct from the background) it equals neither pure `A` nor pure
background. -/
theorem C4_miss_contributes_background (A bg : Color) (k : ℕ)
    (d1 d2 d3 w1 w2 w3 w4 : ℚ) (hw1 : 0 < w1) (hw2 : 0 < w2) (hw3 : 0 < w3)
    (hw4 : 0 < w4) (hAbg : A ≠ bg) :
    resolvePixel (samples31 A k d1 d2 d3 w1 w2 w3 w4) bg =
      Color.scale (w1 + w2 + w3 + w4)⁻¹
        (Color.add (Color.scale (w1 + w2 + w3) A) (Color.scale w4 bg)) ∧
    resolvePixel (samples31 A k d1 d2 d3 w1 w2 w3 w4) bg ≠ A ∧
    resolvePixel (samples31 A k d1 d2 d3 w1 w2 w3 w4) bg ≠ bg :=
  ⟨resolvePixel_samples31 A bg k d1 d2 d3 w1 w2 w3 w4,
   resolvePixel_samples31_ne A bg k d1 d2 d3 w1 w2 w3 w4 hw1 hw2 hw3 hw4 hAbg⟩

theorem C4_witness :
    (0 : ℚ) < 1 ∧ (0 : ℚ) < 2 ∧ (0 : ℚ) < 3 ∧ (0 : ℚ) < 5 ∧
    (⟨1, 0, 0⟩ : Color) ≠ ⟨0, 0, 0⟩ ∧
    (resolvePixel (samples31 ⟨1, 0, 0⟩ 9 4 6 8 1 2 3 5) ⟨0, 0, 0⟩ =
      Color.scale (1 + 2 + 3 + 5)⁻¹
        (Color.add (Color.scale (1 + 2 + 3) ⟨1, 0, 0⟩)
          (Color.scale 5 ⟨0, 0, 0⟩)) ∧
     resolvePixel (samples31 ⟨1, 0, 0⟩ 9 4 6 8 1 2 3 5) ⟨0, 0, 0⟩ ≠ ⟨1, 0, 0⟩ ∧
     resolvePixel (samples31 ⟨1, 0, 0⟩ 9 4 6 8 1 2 3 5) ⟨0, 0, 0⟩ ≠ ⟨0, 0, 0⟩) := by
  refine ⟨by norm_num, by norm_num, by norm_num, by norm_num, by decide, ?_⟩
  exact C4_miss_contributes_background ⟨1, 0, 0⟩ ⟨0, 0, 0⟩ 9 4 6 8 1 2 3 5
    (by norm_num) (by norm_num) (by norm_num) (by norm_num) (by decide)

/-- C9: degenerate per-pixel data — a pixel with zero subsamples, or one all
of whose subsamples are misses — is not a failure: the per-pixel resolve is a
total function that produces the documented background fallback in both
cases. -/
theorem C9_degenerate_background_fallback (samples : List (SampleResult × ℚ))
    (bg : Color) (h : ∀ s ∈ samples, s.1 = SampleResult.miss) :
    resolvePixel ([] : List (SampleResult × ℚ)) bg = bg ∧
    resolvePixel samples bg = bg :=
  ⟨resolvePixel_all_miss [] bg (fun s hs => absurd hs (List.not_mem_nil s)),
   resolvePixel_all_miss samples bg h⟩

theorem C9_witness :
    (∀ s ∈ [((SampleResult.miss : SampleResult), (2 : ℚ)),
      (SampleResult.miss, 3)], s.1 = SampleResult.miss) ∧
    resolvePixel ([] : List (SampleResult × ℚ)) ⟨7, 8, 9⟩ = ⟨7, 8, 9⟩ ∧
    resolvePixel [((SampleResult.miss : SampleResult), (2 : ℚ)),
      (SampleResult.miss, 3)] ⟨7, 8, 9⟩ = ⟨7, 8, 9⟩ := by
  refine ⟨by decide, ?_, ?_⟩
  · exact (C9_degenerate_background_fallback
      [((SampleResult.miss : SampleResult), (2 : ℚ)), (SampleResult.miss, 3)]
      ⟨7, 8, 9⟩ (by decide)).1
  · exact (C9_degenerate_background_fallback
      [((SampleResult.miss : SampleResult), (2 : ℚ)), (SampleResult.miss, 3)]
      ⟨7, 8, 9⟩ (by decide)).2

/-- C5: For every pixel of a non-empty tile whose subsample count is exactly
1, DeferredMSAAResolve bypasses blending: the resolved color is the single
subsample's own color when it is a hit, and the background color when it is a
miss (for any strictly positive reconstruction filter). -/
theorem C5_single_sample_passthrough (filt : ℚ × ℚ → ℚ) (M3 : matrix3x3)
    (M4 : matrix4x4) (layout : SampleInfo) (T : TileMap)
    (raw : ℕ → SampleResult) (bg : Color) (buf : ℕ → Color) (p : ℕ)
    (hfilt : ∀ o, 0 < filt o) (hp : p < T.pixelCount)
    (hne : T.emptyFlag (T.tileOf p) = false)
    (h1 : layout.sampleCount p = 1) :
    DeferredMSAAResolve filt M3 M4 layout T raw bg buf p
      = (raw (layout.address p 0)).passColor bg := by
  rw [DeferredMSAAResolve, writeList_mem _ _ _ _ (mem_resolveWrites.2 ⟨hp, hne⟩)]
  have hg : gatherPixel filt M3 layout raw p
      = [(raw (layout.address p 0), sampleWeight filt M3 layout p 0)] := by
    rw [gatherPixel, h1]
    rfl
  rw [hg]
  exact resolvePixel_single _ _ (hfilt _) bg

theorem C5_witness :
    (∀ o : ℚ × ℚ, 0 < (fun _ => (1 : ℚ)) o) ∧
    1 < (TileMap.grid 2 1 1 1 (fun t => t == 0)).pixelCount ∧
    (TileMap.grid 2 1 1 1 (fun t => t == 0)).emptyFlag
      ((TileMap.grid 2 1 1 1 (fun t => t == 0)).tileOf 1) = false ∧
    (SampleInfo.mk 2 (fun _ => 1) (fun q _ => q) (fun _ _ => (0, 0))).sampleCount 1 = 1 ∧
    DeferredMSAAResolve (fun _ => 1) ⟨1, 0, 0, 0, 1, 0, 0, 0, 1⟩
      ⟨(1, 0, 0, 0), (0, 1, 0, 0), (0, 0, 1, 0), (0, 0, 0, 1)⟩
      (SampleInfo.mk 2 (fun _ => 1) (fun q _ => q) (fun _ _ => (0, 0)))
      (TileMap.grid 2 1 1 1 (fun t => t == 0))
      (fun a => if a = 1 then SampleResult.hit ⟨2, 3, 4⟩ 0 5 else SampleResult.miss)
      ⟨9, 9, 9⟩ (fun _ => ⟨0, 0, 0⟩) 1 = ⟨2, 3, 4⟩ := by
  refine ⟨fun o => one_pos, by decide, by decide, rfl, ?_⟩
  exact C5_single_sample_passthrough (fun _ => 1) ⟨1, 0, 0, 0, 1, 0, 0, 0, 1⟩
    ⟨(1, 0, 0, 0), (0, 1, 0, 0), (0, 0, 1, 0), (0, 0, 0, 1)⟩
    (SampleInfo.mk 2 (fun _ => 1) (fun q _ => q) (fun _ _ => (0, 0)))
    (TileMap.grid 2 1 1 1 (fun t => t == 0))
    (fun a => if a = 1 then SampleResult.hit ⟨2, 3, 4⟩ 0 5 else SampleResult.miss)
    ⟨9, 9, 9⟩ (fun _ => ⟨0, 0, 0⟩) 1 (fun o => one_pos) (by decide) (by decide) rfl

/-- C6: For every pixel of a non-empty tile, the color DeferredMSAAResolve
writes depends only on the raw-buffer entries at the addresses the layout
descriptor assigns to that pixel: two raw buffers agreeing there produce the
same resolved color at that pixel, so no other pixel's subsamples contribute,
including at tile boundaries. -/
theorem C6_addressing_correctness (filt : ℚ × ℚ → ℚ) (M3 : matrix3x3)
    (M4 : matrix4x4) (layout : SampleInfo) (T : TileMap)
    (raw1 raw2 : ℕ → SampleResult) (bg : Color) (buf : ℕ → Color) (p : ℕ)
    (hp : p < T.pixelCount) (hne : T.emptyFlag (T.tileOf p) = false)
    (hagree : ∀ i < layout.sampleCount p,
      raw1 (layout.address p i) = raw2 (layout.address p i)) :
    DeferredMSAAResolve filt M3 M4 layout T raw1 bg buf p
      = DeferredMSAAResolve filt M3 M4 layout T raw2 bg buf p := by
  rw [DeferredMSAAResolve, DeferredMSAAResolve,
    writeList_mem _ _ _ _ (mem_resolveWrites.2 ⟨hp, hne⟩),
    writeList_mem _ _ _ _ (mem_resolveWrites.2 ⟨hp, hne⟩)]
  have hg : gatherPixel filt M3 layout raw1 p = gatherPixel filt M3 layout raw2 p := by
    rw [gatherPixel, gatherPixel]
    refine List.map_congr_left (fun i hi => ?_)
    rw [hagree i (List.mem_range.1 hi)]
  rw [hg]

theorem C6_witness :
    1 < (TileMap.grid 2 1 1 1 (fun t => t == 0)).pixelCount ∧
    (TileMap.grid 2 1 1 1 (fun t => t == 0)).emptyFlag
      ((TileMap.grid 2 1 1 1 (fun t => t == 0)).tileOf 1) = false ∧
    (∀ i < (SampleInfo.mk 2 (fun _ => 1) (fun q _ => q) (fun _ _ => (0, 0))).sampleCount 1,
      (fun _ => (SampleResult.miss : SampleResult))
          ((SampleInfo.mk 2 (fun _ => 1) (fun q _ => q) (fun _ _ => (0, 0))).address 1 i)
        = (fun a => if a = 0 then SampleResult.hit ⟨1, 1, 1⟩ 0 3 else SampleResult.miss)
          ((SampleInfo.mk 2 (fun _ => 1) (fun q _ => q) (fun _ _ => (0, 0))).address 1 i)) ∧
    DeferredMSAAResolve (fun _ => 1) ⟨1, 0, 0, 0, 1, 0, 0, 0, 1⟩
      ⟨(1, 0, 0, 0), (0, 1, 0, 0), (0, 0, 1, 0), (0, 0, 0, 1)⟩
      (SampleInfo.mk 2 (fun _ => 1) (fun q _ => q) (fun _ _ => (0, 0)))
      (TileMap.grid 2 1 1 1 (fun t => t == 0))
      (fun _ => (SampleResult.miss : SampleResult)) ⟨9, 9, 9⟩ (fun _ => ⟨0, 0, 0⟩) 1
      = DeferredMSAAResolve (fun _ => 1) ⟨1, 0, 0, 0, 1, 0, 0, 0, 1⟩
      ⟨(1, 0, 0, 0), (0, 1, 0, 0), (0, 0, 1, 0), (0, 0, 0, 1)⟩
      (SampleInfo.mk 2 (fun _ => 1) (fun q _ => q) (fun _ _ => (0, 0)))
      (TileMap.grid 2 1 1 1 (fun t => t == 0))
      (fun a => if a = 0 then SampleResult.hit ⟨1, 1, 1⟩ 0 3 else SampleResult.miss)
      ⟨9, 9, 9⟩ (fun _ => ⟨0, 0, 0⟩) 1 := by
  refine ⟨by decide, by decide, fun i hi => rfl, ?_⟩
  exact C6_addressing_correctness (fun _ => 1) ⟨1, 0, 0, 0, 1, 0, 0, 0, 1⟩
    ⟨(1, 0, 0, 0), (0, 1, 0, 0), (0, 0, 1, 0), (0, 0, 0, 1)⟩
    (SampleInfo.mk 2 (fun _ => 1) (fun q _ => q) (fun _ _ => (0, 0)))
    (TileMap.grid 2 1 1 1 (fun t => t == 0))
    (fun _ => (SampleResult.miss : SampleResult))
    (fun a => if a = 0 then SampleResult.hit ⟨1, 1, 1⟩ 0 3 else SampleResult.miss)
    ⟨9, 9, 9⟩ (fun _ => ⟨0, 0, 0⟩) 1 (by decide) (by decide) (fun i hi => rfl)

/-- C7: Resolving a frame whose raw per-sample buffer consists entirely of
misses — Clear-Empty-Tiles over the empty tiles followed by Deferred MSAA
Resolve over the rest — produces a resolved color buffer in which every pixel
equals the background color. -/
theorem C7_all_miss_uniform_background (filt : ℚ × ℚ → ℚ) (M3 : matrix3x3)
    (M4 : matrix4x4) (layout : SampleInfo) (T : TileMap)
    (raw : ℕ → SampleResult) (bg : Color) (buf : ℕ → Color) (p : ℕ)
    (hp : p < T.pixelCount) (hmiss : ∀ a, raw a = SampleResult.miss) :
    resolveFrame filt M3 M4 layout T raw bg buf p = bg := by
  rw [resolveFrame, DeferredMSAAResolve]
  cases hflag : T.emptyFlag (T.tileOf p) with
  | true =>
    rw [writeList_not_mem _ _ _ _ (fun hmem => by
      rw [(mem_resolveWrites.1 hmem).2] at hflag
      cases hflag)]
    rw [ClearEmptyTiles, writeList_mem _ _ _ _ (mem_clearWrites.2 ⟨hp, hflag⟩)]
  | false =>
    rw [writeList_mem _ _ _ _ (mem_resolveWrites.2 ⟨hp, hflag⟩)]
    apply resolvePixel_all_miss
    intro s hs
    rw [gatherPixel] at hs
    rcases List.mem_map.1 hs with ⟨i, hi, rfl⟩
    exact hmiss _

theorem C7_witness :
    0 < (TileMap.grid 2 1 1 1 (fun t => t == 0)).pixelCount ∧
    (∀ a : ℕ, (fun _ => (SampleResult.miss : SampleResult)) a = SampleResult.miss) ∧
    resolveFrame (fun _ => 1) ⟨1, 0, 0, 0, 1, 0, 0, 0, 1⟩
      ⟨(1, 0, 0, 0), (0, 1, 0, 0), (0, 0, 1, 0), (0, 0, 0, 1)⟩
      (SampleInfo.mk 2 (fun _ => 1) (fun q _ => q) (fun _ _ => (0, 0)))
      (TileMap.grid 2 1 1 1 (fun t => t == 0))
      (fun _ => (SampleResult.miss : SampleResult)) ⟨7, 7, 7⟩
      (fun _ => ⟨0, 0, 0⟩) 0 = ⟨7, 7, 7⟩ := by
  refine ⟨by decide, fun a => rfl, ?_⟩
  exact C7_all_miss_uniform_background (fun _ => 1) ⟨1, 0, 0, 0, 1, 0, 0, 0, 1⟩
    ⟨(1, 0, 0, 0), (0, 1, 0, 0), (0, 0, 1, 0), (0, 0, 0, 1)⟩
    (SampleInfo.mk 2 (fun _ => 1) (fun q _ => q) (fun _ _ => (0, 0)))
    (TileMap.grid 2 1 1 1 (fun t => t == 0))
    (fun _ => (SampleResult.miss : SampleResult)) ⟨7, 7, 7⟩
    (fun _ => ⟨0, 0, 0⟩) 0 (by decide) (fun a => rfl)

/-- C8 (counterexample): the claim says DeferredMSAAResolve receives a device
execution queue among its inputs, but in resolve.h its parameter list contains
no parameter of the queue type `cudaStream_t` — only ClearEmptyTiles takes
one. -/
theorem C8_counterexample :
    (DeferredMSAAResolve_decl.params.countP fun q => q.ptype == "cudaStream_t") = 0 ∧
    (ClearEmptyTiles_decl.params.countP fun q => q.ptype == "cudaStream_t") = 1 := by
  decide

/-- C8 (amended): the DeferredMSAAResolve entry point receives as inputs the
raw per-sample result buffer, the Sample Layout Descriptor (`SampleInfo`, by
value), the sample-to-camera-space transform and the camera-to-world-space
transform (both by const reference) — but no device execution queue — and
returns no value; its only side effect is the described write into the
camera's resolved color buffer: every pixel of its write set receives the
reconstructed color of its own gathered subsamples and every other pixel of
the buffer is left unchanged. -/
theorem C8_amended_resolve_interface (filt : ℚ × ℚ → ℚ) (M3 : matrix3x3)
    (M4 : matrix4x4) (layout : SampleInfo) (T : TileMap)
    (raw : ℕ → SampleResult) (bg : Color) (buf : ℕ → Color) (p : ℕ) :
    (p ∈ resolveWrites T →
      DeferredMSAAResolve filt M3 M4 layout T raw bg buf p
        = resolvePixel (gatherPixel filt M3 layout raw p) bg) ∧
    (p ∉ resolveWrites T →
      DeferredMSAAResolve filt M3 M4 layout T raw bg buf p = buf p) ∧
    DeferredMSAAResolve_decl.fname = "DeferredMSAAResolve" ∧
    DeferredMSAAResolve_decl.ret = "void" ∧
    DeferredMSAAResolve_decl.params.map (fun q => (q.pname, q.ptype, q.mode)) =
      [("camera", "GPUCamera", PassMode.byMutRef),
       ("d_sampleResults", "unsigned int", PassMode.byMutPtr),
       ("sampleInfo", "SampleInfo", PassMode.byValue),
       ("sampleToCamera", "matrix3x3", PassMode.byConstRef),
       ("cameraToWorld", "matrix4x4", PassMode.byConstRef)] ∧
    (DeferredMSAAResolve_decl.params.countP fun q => q.ptype == "cudaStream_t") = 0 := by
  refine ⟨fun h => writeList_mem _ _ _ _ h, fun h => writeList_not_mem _ _ _ _ h,
    rfl, rfl, rfl, by decide⟩

theorem C8_witness :
    1 ∈ resolveWrites (TileMap.grid 2 1 1 1 (fun t => t == 0)) ∧
    0 ∉ resolveWrites (TileMap.grid 2 1 1 1 (fun t => t == 0)) ∧
    DeferredMSAAResolve (fun _ => 1) ⟨1, 0, 0, 0, 1, 0, 0, 0, 1⟩
      ⟨(1, 0, 0, 0), (0, 1, 0, 0), (0, 0, 1, 0), (0, 0, 0, 1)⟩
      (SampleInfo.mk 2 (fun _ => 1) (fun q _ => q) (fun _ _ => (0, 0)))
      (TileMap.grid 2 1 1 1 (fun t => t == 0))
      (fun _ => (SampleResult.miss : SampleResult)) ⟨9, 9, 9⟩
      (fun _ => ⟨0, 0, 0⟩) 1
      = resolvePixel (gatherPixel (fun _ => 1) ⟨1, 0, 0, 0, 1, 0, 0, 0, 1⟩
          (SampleInfo.mk 2 (fun _ => 1) (fun q _ => q) (fun _ _ => (0, 0)))
          (fun _ => (SampleResult.miss : SampleResult)) 1) ⟨9, 9, 9⟩ ∧
    DeferredMSAAResolve (fun _ => 1) ⟨1, 0, 0, 0, 1, 0, 0, 0, 1⟩
      ⟨(1, 0, 0, 0), (0, 1, 0, 0), (0, 0, 1, 0), (0, 0, 0, 1)⟩
      (SampleInfo.mk 2 (fun _ => 1) (fun q _ => q) (fun _ _ => (0, 0)))
      (TileMap.grid 2 1 1 1 (fun t => t == 0))
      (fun _ => (SampleResult.miss : SampleResult)) ⟨9, 9, 9⟩
      (fun _ => ⟨0, 0, 0⟩) 0 = ⟨0, 0, 0⟩ := by
  refine ⟨by decide, by decide, ?_, ?_⟩
  · exact (C8_amended_resolve_interface (fun _ => 1) ⟨1, 0, 0, 0, 1, 0, 0, 0, 1⟩
      ⟨(1, 0, 0, 0), (0, 1, 0, 0), (0, 0, 1, 0), (0, 0, 0, 1)⟩
      (SampleInfo.mk 2 (fun _ => 1) (fun q _ => q) (fun _ _ => (0, 0)))
      (TileMap.grid 2 1 1 1 (fun t => t == 0))
      (fun _ => (SampleResult.miss : SampleResult)) ⟨9, 9, 9⟩
      (fun _ => ⟨0, 0, 0⟩) 1).1 (by decide)
  · exact (C8_amended_resolve_interface (fun _ => 1) ⟨1, 0, 0, 0, 1, 0, 0, 0, 1⟩
      ⟨(1, 0, 0, 0), (0, 1, 0, 0), (0, 0, 1, 0), (0, 0, 0, 1)⟩
      (SampleInfo.mk 2 (fun _ => 1) (fun q _ => q) (fun _ _ => (0, 0)))
      (TileMap.grid 2 1 1 1 (fun t => t == 0))
      (fun _ => (SampleResult.miss : SampleResult)) ⟨9, 9, 9⟩
      (fun _ => ⟨0, 0, 0⟩) 0).2.1 (by decide)

/-- C10: neither entry point can modify the Sample Layout Descriptor or the
camera transforms through its parameters: DeferredMSAAResolve takes
`SampleInfo` by value and both matrices by const reference, and in both
declarations the only parameters through which caller-visible state is
mutable are the camera reference and the raw device pointer
`d_sampleResults`. -/
theorem C10_immutable_descriptor_and_transforms :
    ((DeferredMSAAResolve_decl.params.filter fun q => q.callerMutable).map
      fun q => q.pname) = ["camera", "d_sampleResults"] ∧
    ((ClearEmptyTiles_decl.params.filter fun q => q.callerMutable).map
      fun q => q.pname) = ["camera", "d_sampleResults"] ∧
    (DeferredMSAAResolve_decl.params.countP fun q =>
      q.pname == "sampleInfo" && decide (q.mode = PassMode.byValue)) = 1 ∧
    (DeferredMSAAResolve_decl.params.countP fun q =>
      q.pname == "sampleToCamera" && decide (q.mode = PassMode.byConstRef)) = 1 ∧
    (DeferredMSAAResolve_decl.params.countP fun q =>
      q.pname == "cameraToWorld" && decide (q.mode = PassMode.byConstRef)) = 1 := by
  decide

end HVVR
